import Mathlib

/-!
Verification of the Playlist Timing & Visualization Engine of
spotify-playlist-timing-analyzer.

Shallow embedding conventions:
- millisecond counts and civil wall-clock times are integers (`ℤ`);
  Python's floor division `//` and `%` on non-negative divisors coincide
  with `Int.ediv` / `Int.emod`, which are Lean's `/` and `%` on `ℤ` here;
- Python floats in the color gradient are modelled by rationals (`ℚ`),
  with `int(...)` truncation toward zero modelled by `pyTrunc`;
- datetimes are split into a civil wall-clock component (displayed) and an
  absolute instant (civil minus UTC offset); a pytz timezone is modelled by
  its civil-time-to-offset map;
- the crossfade/target-mode aware assembler revision is invoked from
  ui/app.py with six arguments but absent from src/spotify/playlist.py
  (which holds the earlier three-argument revision); the missing revision
  is modelled from the spec where indicated.
-/

/-- Zero-pad a natural number to at least two decimal digits, as Python
format spec 02d does for non-negative values (full integer when ≥ 100). -/
def natPad2 (n : ℕ) : String :=
  if n < 10 then "0" ++ Nat.repr n else Nat.repr n

/-- Python format spec 02d on an integer: sign followed by digits for
negative values, zero-padded two digits otherwise. -/
def fmt02d (z : ℤ) : String :=
  if z < 0 then "-" ++ Nat.repr (-z).toNat else natPad2 z.toNat

/-- Embeds ms_to_mmss from src/logic/formatting.py: total seconds split
into minutes and seconds, rendered MM:SS. -/
def ms_to_mmss (ms : ℤ) : String :=
  let totalSeconds := ms / 1000
  let minutes := totalSeconds / 60
  let seconds := totalSeconds % 60
  fmt02d minutes ++ ":" ++ fmt02d seconds

/-- Embeds ms_to_hhmmss from src/logic/formatting.py: total seconds split
into hours, minutes and seconds, rendered HHh MMm SSs. -/
def ms_to_hhmmss (ms : ℤ) : String :=
  let totalSeconds := ms / 1000
  let hours := totalSeconds / 3600
  let minutes := (totalSeconds % 3600) / 60
  let seconds := totalSeconds % 60
  fmt02d hours ++ "h " ++ fmt02d minutes ++ "m " ++ fmt02d seconds ++ "s"

/-- Embeds dt_to_hhmm from src/logic/formatting.py on a civil wall-clock
time given in milliseconds: 24-hour HH:MM via strftime. -/
def dt_to_hhmm (civil_ms : ℤ) : String :=
  fmt02d (civil_ms / 3600000 % 24) ++ ":" ++ fmt02d (civil_ms % 3600000 / 60000)

/-- Embeds the Artist pydantic model from src/domain/models.py. -/
structure Artist where
  name : String
deriving DecidableEq

/-- Embeds join_artists from src/logic/formatting.py: comma-and-space
joined artist names. -/
def join_artists (artists : List Artist) : String :=
  let sep : String := ", "
  String.intercalate sep (artists.map Artist.name)

/-- Python int() on a rational: truncation toward zero. -/
def pyTrunc (q : ℚ) : ℤ :=
  if 0 ≤ q then ⌊q⌋ else ⌈q⌉

/-- One lowercase hexadecimal digit character for a value below 16. -/
def hexDigitChar (n : ℕ) : Char :=
  if n < 10 then Char.ofNat (48 + n) else Char.ofNat (87 + n)

/-- Fuelled lowercase hexadecimal digit list of a natural number,
most-significant digit first. -/
def pyHexAux : ℕ → ℕ → List Char
  | 0, _ => []
  | fuel + 1, n =>
    if n < 16 then [hexDigitChar n] else pyHexAux fuel (n / 16) ++ [hexDigitChar (n % 16)]

/-- Python format spec 02x on a natural number: lowercase hex digits,
zero-padded to width two. -/
def pad2x (n : ℕ) : List Char :=
  if (pyHexAux (n + 1) n).length < 2 then '0' :: pyHexAux (n + 1) n
  else pyHexAux (n + 1) n

/-- Python format spec 02x on an integer: sign plus digits when negative
(the sign counts toward the width), padded two-digit hex otherwise. -/
def fmt02x (z : ℤ) : List Char :=
  if z < 0 then '-' :: pyHexAux ((-z).toNat + 1) (-z).toNat else pad2x z.toNat

/-- The f-string building a hex color from three channels in
src/logic/colors.py. -/
def hexColor (r g b : ℤ) : String :=
  ⟨'#' :: (fmt02x r ++ fmt02x g ++ fmt02x b)⟩

/-- Recognizes the characters 0-9 and a-f. -/
def isHexDigitLower (c : Char) : Bool :=
  (48 ≤ c.toNat && c.toNat ≤ 57) || (97 ≤ c.toNat && c.toNat ≤ 102)

/-- Clamp a rational to the unit interval, as the source clamps the
normalized interpolation position. -/
def clamp01 (q : ℚ) : ℚ :=
  max 0 (min 1 q)

/-- Embeds _linear_interpolate from src/logic/colors.py: midpoint color on
a zero-width range, else a clamped linear blend of the two RGB endpoint
tuples, each channel truncated by int(). -/
def linear_interpolate (value min_val max_val : ℚ) (start_color end_color : ℤ × ℤ × ℤ) : String :=
  if max_val = min_val then
    hexColor ((start_color.1 + end_color.1) / 2) ((start_color.2.1 + end_color.2.1) / 2)
      ((start_color.2.2 + end_color.2.2) / 2)
  else
    hexColor
      (pyTrunc ((start_color.1 : ℚ) +
        ((end_color.1 : ℚ) - (start_color.1 : ℚ)) * clamp01 ((value - min_val) / (max_val - min_val))))
      (pyTrunc ((start_color.2.1 : ℚ) +
        ((end_color.2.1 : ℚ) - (start_color.2.1 : ℚ)) * clamp01 ((value - min_val) / (max_val - min_val))))
      (pyTrunc ((start_color.2.2 : ℚ) +
        ((end_color.2.2 : ℚ) - (start_color.2.2 : ℚ)) * clamp01 ((value - min_val) / (max_val - min_val))))

/-- Embeds duration_color from src/logic/colors.py: gray on a degenerate
range, otherwise a green-to-white blend below the midpoint
(min+max)/2.0 of the range and a white-to-red blend above it. -/
def duration_color (ms min_ms max_ms : ℤ) : String :=
  if max_ms = min_ms then "#808080"
  else
    if (ms : ℚ) ≤ ((min_ms : ℚ) + (max_ms : ℚ)) / 2 then
      linear_interpolate (ms : ℚ) (min_ms : ℚ) (((min_ms : ℚ) + (max_ms : ℚ)) / 2)
        (46, 204, 113) (255, 255, 255)
    else
      linear_interpolate (ms : ℚ) (((min_ms : ℚ) + (max_ms : ℚ)) / 2) (max_ms : ℚ)
        (255, 255, 255) (231, 76, 60)

/-- One channel of the spec's gradient: linear blend from s to e at a
position, truncated toward zero. -/
def blendChannel (s e : ℤ) (pos : ℚ) : ℤ :=
  pyTrunc ((s : ℚ) + ((e : ℚ) - (s : ℚ)) * pos)

/-- The color scale exactly as the spec words it (claim side of the
refinement): gray when min = max; for value at most mid = (min+max)/2 a
green-to-white blend positioned between min and mid, else a white-to-red
blend positioned between mid and max, the position clamped to the unit
interval and each channel truncated toward zero. -/
def durationColorSpec (ms min_ms max_ms : ℤ) : String :=
  if min_ms = max_ms then "#808080"
  else
    if (ms : ℚ) ≤ ((min_ms : ℚ) + (max_ms : ℚ)) / 2 then
      hexColor
        (blendChannel 46 255 (clamp01 (((ms : ℚ) - (min_ms : ℚ)) /
          (((min_ms : ℚ) + (max_ms : ℚ)) / 2 - (min_ms : ℚ)))))
        (blendChannel 204 255 (clamp01 (((ms : ℚ) - (min_ms : ℚ)) /
          (((min_ms : ℚ) + (max_ms : ℚ)) / 2 - (min_ms : ℚ)))))
        (blendChannel 113 255 (clamp01 (((ms : ℚ) - (min_ms : ℚ)) /
          (((min_ms : ℚ) + (max_ms : ℚ)) / 2 - (min_ms : ℚ)))))
    else
      hexColor
        (blendChannel 255 231 (clamp01 (((ms : ℚ) - ((min_ms : ℚ) + (max_ms : ℚ)) / 2) /
          ((max_ms : ℚ) - ((min_ms : ℚ) + (max_ms : ℚ)) / 2))))
        (blendChannel 255 76 (clamp01 (((ms : ℚ) - ((min_ms : ℚ) + (max_ms : ℚ)) / 2) /
          ((max_ms : ℚ) - ((min_ms : ℚ) + (max_ms : ℚ)) / 2))))
        (blendChannel 255 60 (clamp01 (((ms : ℚ) - ((min_ms : ℚ) + (max_ms : ℚ)) / 2) /
          ((max_ms : ℚ) - ((min_ms : ℚ) + (max_ms : ℚ)) / 2))))

/-- Embeds the TrackRaw pydantic model from src/domain/models.py. -/
structure TrackRaw where
  id : String
  name : String
  artists : List Artist
  duration_ms : ℤ
deriving DecidableEq

/-- Embeds the TrackRow pydantic model from src/domain/models.py. -/
structure TrackRow where
  index : ℕ
  name : String
  artists_display : String
  duration_ms : ℤ
  duration_display : String
  cumulative_ms : ℤ
  cumulative_display : String
  approx_time_display : String
deriving DecidableEq

/-- Embeds the stats dict built by _compute_playlist_stats in
src/spotify/playlist.py. -/
structure PlaylistStats where
  total_tracks : ℕ
  total_duration_ms : ℤ
  min_duration_ms : ℤ
  max_duration_ms : ℤ
deriving DecidableEq

/-- Python min over a list, 0 on the empty list, as the conditional
expression in _compute_playlist_stats. -/
def listMinD : List ℤ → ℤ
  | [] => 0
  | d :: ds => ds.foldl min d

/-- Python max over a list, 0 on the empty list, as the conditional
expression in _compute_playlist_stats. -/
def listMaxD : List ℤ → ℤ
  | [] => 0
  | d :: ds => ds.foldl max d

/-- Embeds _compute_playlist_stats from src/spotify/playlist.py. -/
def compute_playlist_stats (tracks : List TrackRaw) : PlaylistStats :=
  let duration_values := tracks.map TrackRaw.duration_ms
  { total_tracks := tracks.length
    total_duration_ms := duration_values.sum
    min_duration_ms := listMinD duration_values
    max_duration_ms := listMaxD duration_values }

/-- The running-total loop of compute_cumulative_ms from
src/logic/timing.py, with the accumulator explicit. -/
def compute_cumulative_ms_from : ℤ → List ℤ → List ℤ
  | _, [] => []
  | running, d :: rest => (running + d) :: compute_cumulative_ms_from (running + d) rest

/-- Embeds compute_cumulative_ms from src/logic/timing.py: plain running
prefix sums of the durations. -/
def compute_cumulative_ms (durations_ms : List ℤ) : List ℤ :=
  compute_cumulative_ms_from 0 durations_ms

/-- pytz localize on a civil wall-clock time: the absolute instant is the
civil time minus the zone's UTC offset at that civil time. -/
def localize (offsetAt : ℤ → ℤ) (civil_ms : ℤ) : ℤ :=
  civil_ms - offsetAt civil_ms

/-- Embeds approx_times from src/logic/timing.py on the naive-anchor path
taken by the application: each cumulative offset is added to the civil
anchor, and the resulting civil time is then localized into the zone.
The returned values are the absolute instants of the produced datetimes. -/
def approx_times (offsetAt : ℤ → ℤ) (start_civil_ms : ℤ) (cumulative_ms : List ℤ) : List ℤ :=
  cumulative_ms.map (fun c => localize offsetAt (start_civil_ms + c))

/-- UTC offset map of Europe/Helsinki on 2024-03-31 (spring forward), in
milliseconds since local midnight: +2h before the 03:00 jump, +3h at and
after it, matching what pytz localize assigns to existing civil times
that day. -/
def helsinki2024SpringOffset (civil_ms : ℤ) : ℤ :=
  if civil_ms < 10800000 then 7200000 else 10800000

/-- The row-building loop (step 6) of load_playlist_rows in
src/spotify/playlist.py: zips tracks with cumulative offsets and approx
civil times, assigning 1-based indices; display fields keep the civil
wall clock, as pytz localize does. -/
def build_rows : ℕ → List TrackRaw → List ℤ → List ℤ → List TrackRow
  | _, [], _, _ => []
  | _, _ :: _, [], _ => []
  | _, _ :: _, _ :: _, [] => []
  | i, t :: ts, c :: cs, a :: as_ =>
    { index := i + 1
      name := t.name
      artists_display := join_artists t.artists
      duration_ms := t.duration_ms
      duration_display := ms_to_mmss t.duration_ms
      cumulative_ms := c
      cumulative_display := ms_to_hhmmss c
      approx_time_display := dt_to_hhmm a } :: build_rows (i + 1) ts cs as_

/-- Embeds the assembly core (steps 4-7) of the three-argument
load_playlist_rows in src/spotify/playlist.py, from the already fetched
tracks: plain cumulative sums, civil approx times from the naive anchor,
rows, and stats over the untrimmed durations. -/
def load_playlist_rows (tracks : List TrackRaw) (start_civil_ms : ℤ) :
    List TrackRow × PlaylistStats :=
  let durations_ms := tracks.map TrackRaw.duration_ms
  let cumulative_ms_list := compute_cumulative_ms durations_ms
  let approx_dts := cumulative_ms_list.map (fun c => start_civil_ms + c)
  (build_rows 0 tracks cumulative_ms_list approx_dts, compute_playlist_stats tracks)

/-- Modelled from the spec: effective per-track playtime
max(0, durationMs - trimMs) under a crossfade trim; the trim-aware
calculator is called from ui/app.py but missing from
src/spotify/playlist.py. -/
def effective_ms (duration_ms trim_ms : ℤ) : ℤ :=
  max 0 (duration_ms - trim_ms)

/-- Modelled from the spec: the running-total loop of the crossfade-aware
cumulative computation, subtracting the trim from every track except the
final one of the sequence, which contributes its full duration; this
calculator revision is invoked by ui/app.py but absent from
src/spotify/playlist.py. -/
def cumulative_with_trim_from : ℤ → ℤ → List ℤ → List ℤ
  | _, _, [] => []
  | _, running, [d] => [running + d]
  | trim_ms, running, d :: d2 :: rest =>
    (running + effective_ms d trim_ms) ::
      cumulative_with_trim_from trim_ms (running + effective_ms d trim_ms) (d2 :: rest)

/-- Modelled from the spec: crossfade-aware cumulative offsets (see
cumulative_with_trim_from). -/
def cumulative_with_trim (durations_ms : List ℤ) (trim_ms : ℤ) : List ℤ :=
  cumulative_with_trim_from trim_ms 0 durations_ms

/-- The per-track effective contributions the spec sums: the trim applies
to every index except the final one. -/
def effects_except_last : ℤ → List ℤ → List ℤ
  | _, [] => []
  | _, [d] => [d]
  | trim_ms, d :: d2 :: rest => effective_ms d trim_ms :: effects_except_last trim_ms (d2 :: rest)

/-- Running (inclusive) sums of a list from an accumulator. -/
def running_sums_from : ℤ → List ℤ → List ℤ
  | _, [] => []
  | acc, x :: xs => (acc + x) :: running_sums_from (acc + x) xs

/-- Inclusive prefix sums of a list. -/
def running_sums (xs : List ℤ) : List ℤ :=
  running_sums_from 0 xs

/-- The two anchoring modes of the spec's TimingParameters. -/
inductive TimingMode
  | forwardFromStart
  | backwardFromTrackEnd
deriving DecidableEq

/-- Modelled from the spec: TimingParameters of the crossfade/target-mode
aware assembler revision invoked by ui/app.py but absent from
src/spotify/playlist.py; the anchor is a civil wall-clock time in
milliseconds. -/
structure TimingParameters where
  anchorCivilMs : ℤ
  trim_ms : ℤ
  mode : TimingMode
  targetTrackIndex : Option ℕ

/-- The error taxonomy entry relevant to the timing computation. -/
inductive TimingError
  | invalidParameters
deriving DecidableEq

/-- Modelled from the spec: ForwardFromStart resolves each cumulative
offset to anchor + cumulativeMs[i]. -/
def forward_timestamps (anchorCivilMs : ℤ) (cumulative : List ℤ) : List ℤ :=
  cumulative.map (fun c => anchorCivilMs + c)

/-- Modelled from the spec: BackwardFromTrackEnd shifts every cumulative
offset by the delta relative to the target track's cumulative offset. -/
def backward_timestamps (anchorCivilMs : ℤ) (cumulative : List ℤ) (target : ℕ) : List ℤ :=
  cumulative.map (fun c => anchorCivilMs + (c - cumulative.getD target 0))

/-- Modelled from the spec: the TimingCalculator of the crossfade-aware
revision; cumulative offsets are computed over the whole sequence first,
and BackwardFromTrackEnd requires a target index in [0, trackCount). -/
def resolve_timestamps (durations_ms : List ℤ) (p : TimingParameters) :
    Except TimingError (List ℤ) :=
  match p.mode with
  | TimingMode.forwardFromStart =>
    Except.ok (forward_timestamps p.anchorCivilMs (cumulative_with_trim durations_ms p.trim_ms))
  | TimingMode.backwardFromTrackEnd =>
    match p.targetTrackIndex with
    | none => Except.error TimingError.invalidParameters
    | some i =>
      if i < durations_ms.length then
        Except.ok (backward_timestamps p.anchorCivilMs
          (cumulative_with_trim durations_ms p.trim_ms) i)
      else Except.error TimingError.invalidParameters

/-- Modelled from the spec: the PlaylistAssembler of the crossfade-aware
revision invoked by ui/app.py but absent from src/spotify/playlist.py;
any InvalidParameters failure from the TimingCalculator aborts the whole
assembly. -/
def assemble_rows (tracks : List TrackRaw) (p : TimingParameters) :
    Except TimingError (List TrackRow × PlaylistStats) :=
  match resolve_timestamps (tracks.map TrackRaw.duration_ms) p with
  | Except.error e => Except.error e
  | Except.ok ts =>
    Except.ok
      (build_rows 0 tracks (cumulative_with_trim (tracks.map TrackRaw.duration_ms) p.trim_ms) ts,
        compute_playlist_stats tracks)

/-! Lemmas about running sums and the crossfade-aware cumulative offsets. -/

theorem cumulative_with_trim_from_eq (trim_ms : ℤ) :
    ∀ (ds : List ℤ) (acc : ℤ),
      cumulative_with_trim_from trim_ms acc ds =
        running_sums_from acc (effects_except_last trim_ms ds)
  | [], _ => rfl
  | [_], _ => rfl
  | d :: d2 :: rest, acc => by
    simp only [cumulative_with_trim_from, effects_except_last, running_sums_from,
      List.cons.injEq, true_and]
    exact cumulative_with_trim_from_eq trim_ms (d2 :: rest) (acc + effective_ms d trim_ms)

theorem running_sums_from_length : ∀ (xs : List ℤ) (acc : ℤ),
    (running_sums_from acc xs).length = xs.length
  | [], _ => rfl
  | x :: xs, acc => by
    simp only [running_sums_from, List.length_cons]
    exact congrArg (· + 1) (running_sums_from_length xs (acc + x))

theorem effects_except_last_length (trim_ms : ℤ) :
    ∀ ds : List ℤ, (effects_except_last trim_ms ds).length = ds.length
  | [] => rfl
  | [_] => rfl
  | d :: d2 :: rest => by
    simp only [effects_except_last, List.length_cons]
    exact congrArg (· + 1) (effects_except_last_length trim_ms (d2 :: rest))

theorem cumulative_with_trim_length (ds : List ℤ) (trim_ms : ℤ) :
    (cumulative_with_trim ds trim_ms).length = ds.length := by
  rw [cumulative_with_trim, cumulative_with_trim_from_eq, running_sums_from_length,
    effects_except_last_length]

theorem running_sums_from_getLast? : ∀ (xs : List ℤ) (acc : ℤ), xs ≠ [] →
    (running_sums_from acc xs).getLast? = some (acc + xs.sum)
  | [], _, h => absurd rfl h
  | [x], acc, _ => by simp [running_sums_from]
  | x :: y :: ys, acc, _ => by
    have ih := running_sums_from_getLast? (y :: ys) (acc + x) (by simp)
    show ((acc + x) :: running_sums_from (acc + x) (y :: ys)).getLast? = _
    rw [show running_sums_from (acc + x) (y :: ys) =
      (acc + x + y) :: running_sums_from (acc + x + y) ys from rfl]
    rw [List.getLast?_cons_cons]
    rw [show ((acc + x + y) :: running_sums_from (acc + x + y) ys).getLast? =
      (running_sums_from (acc + x) (y :: ys)).getLast? from rfl]
    rw [ih]
    simp only [List.sum_cons, Option.some.injEq]
    ring

theorem running_sums_from_chain' : ∀ (xs : List ℤ) (acc : ℤ), (∀ x ∈ xs, 0 ≤ x) →
    List.Chain' (· ≤ ·) (running_sums_from acc xs)
  | [], _, _ => List.chain'_nil
  | [x], acc, _ => by simp [running_sums_from]
  | x :: y :: ys, acc, h => by
    have ih := running_sums_from_chain' (y :: ys) (acc + x)
      (fun z hz => h z (List.mem_cons_of_mem x hz))
    simp only [running_sums_from] at ih ⊢
    rw [List.chain'_cons]
    refine ⟨by have := h y (by simp); omega, ?_⟩
    exact ih

theorem effects_except_last_nonneg (trim_ms : ℤ) : ∀ ds : List ℤ, (∀ d ∈ ds, 0 ≤ d) →
    ∀ x ∈ effects_except_last trim_ms ds, 0 ≤ x
  | [], _, x, hx => by simp [effects_except_last] at hx
  | [d], h, x, hx => by
    simp only [effects_except_last, List.mem_singleton] at hx
    exact hx ▸ h d (by simp)
  | d :: d2 :: rest, h, x, hx => by
    simp only [effects_except_last, List.mem_cons] at hx
    rcases hx with hx | hx
    · exact hx ▸ le_max_left 0 _
    · exact effects_except_last_nonneg trim_ms (d2 :: rest)
        (fun z hz => h z (List.mem_cons_of_mem d hz)) x (by simpa using hx)

/-- Claim C1: under a crossfade trim of t seconds with 0 ≤ t ≤ 30 and
non-negative durations, the cumulative offsets are the inclusive prefix
sums of the effective durations max(0, d - t*1000), with the final track
contributing its full untrimmed duration; the final cumulative element is
the total of those contributions, and the sequence is non-decreasing. -/
theorem c1_cumulative_trim_prefix_sums (ds : List ℤ) (t : ℤ)
    (hds : ∀ d ∈ ds, 0 ≤ d) (ht0 : 0 ≤ t) (ht30 : t ≤ 30) :
    cumulative_with_trim ds (t * 1000) = running_sums (effects_except_last (t * 1000) ds) ∧
    (ds ≠ [] →
      (cumulative_with_trim ds (t * 1000)).getLast? =
        some (effects_except_last (t * 1000) ds).sum) ∧
    List.Chain' (· ≤ ·) (cumulative_with_trim ds (t * 1000)) := by
  have h1 : cumulative_with_trim ds (t * 1000) =
      running_sums_from 0 (effects_except_last (t * 1000) ds) :=
    cumulative_with_trim_from_eq (t * 1000) ds 0
  refine ⟨h1, ?_, ?_⟩
  · intro hne
    have hne' : effects_except_last (t * 1000) ds ≠ [] := by
      intro hcon
      apply hne
      apply List.length_eq_zero.mp
      rw [← effects_except_last_length (t * 1000) ds, hcon]
      rfl
    rw [h1, running_sums_from_getLast? _ 0 hne', zero_add]
  · rw [h1]
    exact running_sums_from_chain' _ 0 (effects_except_last_nonneg _ ds hds)

theorem c1_cumulative_trim_prefix_sums_witness :
    (∀ d ∈ [(180000 : ℤ), 200000], 0 ≤ d) ∧ (0 : ℤ) ≤ 6 ∧ (6 : ℤ) ≤ 30 ∧
    (cumulative_with_trim [180000, 200000] (6 * 1000) =
        running_sums (effects_except_last (6 * 1000) [180000, 200000]) ∧
      (([(180000 : ℤ), 200000] ≠ []) →
        (cumulative_with_trim [180000, 200000] (6 * 1000)).getLast? =
          some (effects_except_last (6 * 1000) [180000, 200000]).sum) ∧
      List.Chain' (· ≤ ·) (cumulative_with_trim [180000, 200000] (6 * 1000))) :=
  ⟨by decide, by decide, by decide,
    c1_cumulative_trim_prefix_sums [180000, 200000] 6 (by decide) (by decide) (by decide)⟩

/-! Lemmas about the two anchoring modes. -/

theorem backward_timestamps_getD (anchor : ℤ) (cum : List ℤ) (tgt : ℕ) (j : ℕ)
    (hj : j < cum.length) :
    (backward_timestamps anchor cum tgt).getD j 0 =
      anchor + (cum.getD j 0 - cum.getD tgt 0) := by
  simp [backward_timestamps, List.getD_eq_getElem?_getD, List.getElem?_map,
    List.getElem?_eq_getElem hj]

theorem resolve_timestamps_backward_ok (durations : List ℤ) (p : TimingParameters) (i : ℕ)
    (hmode : p.mode = TimingMode.backwardFromTrackEnd)
    (htarget : p.targetTrackIndex = some i)
    (hi : i < durations.length) :
    resolve_timestamps durations p =
      Except.ok (backward_timestamps p.anchorCivilMs
        (cumulative_with_trim durations p.trim_ms) i) := by
  simp only [resolve_timestamps, hmode, htarget]
  rw [if_pos hi]

/-- Claim C2 (amended): in BackwardFromTrackEnd mode with a valid target
index, the resolved timestamps satisfy timestamp[target] = anchor and
timestamp[i] = anchor + (cumulativeMs[i] - cumulativeMs[target]); at the
spec's example (anchor 22:00, tracks [180000, 200000], trim 6000 ms,
target index 1) the first track's time is 21:56:40, displayed 21:56. -/
theorem c2_backward_anchor_shift (durations : List ℤ) (p : TimingParameters) (i : ℕ)
    (hmode : p.mode = TimingMode.backwardFromTrackEnd)
    (htarget : p.targetTrackIndex = some i)
    (hi : i < durations.length) :
    (∃ ts, resolve_timestamps durations p = Except.ok ts ∧
      ts.length = durations.length ∧
      ts.getD i 0 = p.anchorCivilMs ∧
      ∀ j, j < durations.length →
        ts.getD j 0 = p.anchorCivilMs +
          ((cumulative_with_trim durations p.trim_ms).getD j 0 -
            (cumulative_with_trim durations p.trim_ms).getD i 0)) ∧
    (backward_timestamps 79200000 (cumulative_with_trim [180000, 200000] 6000) 1).getD 0 0 =
      79000000 ∧
    dt_to_hhmm 79000000 = "21:56" := by
  refine ⟨⟨_, resolve_timestamps_backward_ok durations p i hmode htarget hi, ?_, ?_, ?_⟩,
    by decide, by decide⟩
  · rw [backward_timestamps]
    rw [List.length_map, cumulative_with_trim_length]
  · rw [backward_timestamps_getD _ _ i i (by rw [cumulative_with_trim_length]; exact hi)]
    ring
  · intro j hj
    exact backward_timestamps_getD _ _ i j (by rw [cumulative_with_trim_length]; exact hj)

theorem c2_backward_anchor_shift_witness :
    ((⟨79200000, 6000, TimingMode.backwardFromTrackEnd, some 1⟩ : TimingParameters).mode =
        TimingMode.backwardFromTrackEnd ∧
      (⟨79200000, 6000, TimingMode.backwardFromTrackEnd, some 1⟩ :
          TimingParameters).targetTrackIndex = some 1 ∧
      1 < ([(180000 : ℤ), 200000]).length) ∧
    ((∃ ts, resolve_timestamps [(180000 : ℤ), 200000]
          ⟨79200000, 6000, TimingMode.backwardFromTrackEnd, some 1⟩ = Except.ok ts ∧
        ts.length = ([(180000 : ℤ), 200000]).length ∧
        ts.getD 1 0 = (79200000 : ℤ) ∧
        ∀ j, j < ([(180000 : ℤ), 200000]).length →
          ts.getD j 0 = (79200000 : ℤ) +
            ((cumulative_with_trim [180000, 200000] 6000).getD j 0 -
              (cumulative_with_trim [180000, 200000] 6000).getD 1 0)) ∧
      (backward_timestamps 79200000 (cumulative_with_trim [180000, 200000] 6000) 1).getD 0 0 =
        79000000 ∧
      dt_to_hhmm 79000000 = "21:56") :=
  ⟨⟨rfl, rfl, by decide⟩,
    c2_backward_anchor_shift [180000, 200000]
      ⟨79200000, 6000, TimingMode.backwardFromTrackEnd, some 1⟩ 1 rfl rfl (by decide)⟩

/-- Claim C2 counterexample: at the spec's own example (anchor 22:00 =
79200000 ms, tracks [180000, 200000], trim 6000, target index 1) the
assembly resolves the first track to 79000000 ms (21:56:40, displayed
21:56), not to 22:00 - 174000 ms = 21:57:06 displayed 21:57. -/
theorem c2_backward_example_refuted :
    resolve_timestamps [180000, 200000]
        ⟨79200000, 6000, TimingMode.backwardFromTrackEnd, some 1⟩ =
      Except.ok [79000000, 79200000] ∧
    (79000000 : ℤ) ≠ 79200000 - 174000 ∧
    dt_to_hhmm 79000000 = "21:56" ∧ ("21:56" : String) ≠ "21:57" :=
  ⟨rfl, by decide, by decide, by decide⟩

/-- Claim C3 counterexample: with anchor 20:30 (73800000 ms of day),
tracks [180000, 200000] and trim 6000 in ForwardFromStart mode, the first
track's timestamp is anchor + 174000 ms, not the anchor: it displays
20:32, not 20:30. -/
theorem c3_forward_example_refuted :
    resolve_timestamps [180000, 200000]
        ⟨73800000, 6000, TimingMode.forwardFromStart, none⟩ =
      Except.ok [73974000, 74174000] ∧
    (73974000 : ℤ) ≠ 73800000 ∧
    dt_to_hhmm 73974000 = "20:32" ∧ ("20:32" : String) ≠ "20:30" :=
  ⟨rfl, by decide, by decide, by decide⟩

/-- Claim C3 (amended): in ForwardFromStart mode with anchor 20:30
(73800000 ms of day), tracks [180000, 200000] and trim 6000 ms, the first
track's timestamp is anchor + 174000 ms = 20:32:54 (displayed 20:32) and
the second track's timestamp is anchor + 374000 ms = 20:36:14 (displayed
20:36). -/
theorem c3_forward_timestamps :
    resolve_timestamps [180000, 200000]
        ⟨73800000, 6000, TimingMode.forwardFromStart, none⟩ =
      Except.ok [73800000 + 174000, 73800000 + 374000] ∧
    dt_to_hhmm (73800000 + 174000) = "20:32" ∧
    dt_to_hhmm (73800000 + 374000) = "20:36" :=
  ⟨rfl, by decide, by decide⟩

/-! Lemmas about row building and the assembler. -/

theorem build_rows_length : ∀ (i : ℕ) (ts : List TrackRaw) (cs as_ : List ℤ),
    cs.length = ts.length → as_.length = ts.length →
    (build_rows i ts cs as_).length = ts.length
  | _, [], _, _, _, _ => by simp [build_rows]
  | _, _ :: _, [], _, hc, _ => by simp at hc
  | _, _ :: _, _ :: _, [], _, ha => by simp at ha
  | i, t :: ts, c :: cs, a :: as_, hc, ha => by
    simp only [build_rows, List.length_cons]
    have := build_rows_length (i + 1) ts cs as_ (by simpa using hc) (by simpa using ha)
    omega

/-- Claim C4: the assembly fails -- and with InvalidParameters -- exactly
when the mode is BackwardFromTrackEnd and the target index is absent or
at least the track count; failures carry no rows, and a successful
assembly always returns one row per track. -/
theorem c4_invalid_parameters (tracks : List TrackRaw) (p : TimingParameters) :
    ((∃ e, assemble_rows tracks p = Except.error e) ↔
      p.mode = TimingMode.backwardFromTrackEnd ∧
        (p.targetTrackIndex = none ∨
          ∃ i, p.targetTrackIndex = some i ∧ tracks.length ≤ i)) ∧
    (∀ e, assemble_rows tracks p = Except.error e → e = TimingError.invalidParameters) ∧
    (∀ rows stats, assemble_rows tracks p = Except.ok (rows, stats) →
      rows.length = tracks.length) := by
  obtain ⟨anchor, trim, mode, target⟩ := p
  have hlenrows : ∀ ts : List ℤ, ts.length = tracks.length →
      (build_rows 0 tracks (cumulative_with_trim (tracks.map TrackRaw.duration_ms) trim) ts).length =
        tracks.length := by
    intro ts hts
    exact build_rows_length 0 tracks _ ts
      (by rw [cumulative_with_trim_length, List.length_map]) hts
  cases mode with
  | forwardFromStart =>
    refine ⟨⟨fun ⟨e, he⟩ => ?_, fun ⟨hmode, _⟩ => by simp at hmode⟩, fun e he => ?_,
      fun rows stats hok => ?_⟩
    · simp [assemble_rows, resolve_timestamps] at he
    · simp [assemble_rows, resolve_timestamps] at he
    · simp only [assemble_rows, resolve_timestamps, Except.ok.injEq, Prod.mk.injEq] at hok
      rw [← hok.1]
      exact hlenrows _ (by rw [forward_timestamps, List.length_map,
        cumulative_with_trim_length, List.length_map])
  | backwardFromTrackEnd =>
    cases target with
    | none =>
      refine ⟨⟨fun _ => ⟨rfl, Or.inl rfl⟩, fun _ => ?_⟩,
        fun e _ => by cases e; rfl, fun rows stats hok => ?_⟩
      · exact ⟨TimingError.invalidParameters, rfl⟩
      · simp [assemble_rows, resolve_timestamps] at hok
    | some i =>
      by_cases hi : i < tracks.length
      · have hres : resolve_timestamps (tracks.map TrackRaw.duration_ms)
            ⟨anchor, trim, TimingMode.backwardFromTrackEnd, some i⟩ =
            Except.ok (backward_timestamps anchor
              (cumulative_with_trim (tracks.map TrackRaw.duration_ms) trim) i) :=
          resolve_timestamps_backward_ok _ _ i rfl rfl (by rw [List.length_map]; exact hi)
        refine ⟨⟨fun ⟨e, he⟩ => ?_, fun ⟨_, habs⟩ => ?_⟩, fun e _ => by cases e; rfl,
          fun rows stats hok => ?_⟩
        · simp [assemble_rows, hres] at he
        · rcases habs with h | ⟨j, hj, hle⟩
          · simp at h
          · simp only [Option.some.injEq] at hj
            omega
        · rw [assemble_rows, hres] at hok
          simp only [Except.ok.injEq, Prod.mk.injEq] at hok
          rw [← hok.1]
          exact hlenrows _ (by rw [backward_timestamps, List.length_map,
            cumulative_with_trim_length, List.length_map])
      · have hres : resolve_timestamps (tracks.map TrackRaw.duration_ms)
            ⟨anchor, trim, TimingMode.backwardFromTrackEnd, some i⟩ =
            Except.error TimingError.invalidParameters := by
          simp only [resolve_timestamps]
          rw [if_neg (by rw [List.length_map]; exact hi)]
        refine ⟨⟨fun _ => ⟨rfl, Or.inr ⟨i, rfl, by omega⟩⟩, fun _ => ?_⟩,
          fun e _ => by cases e; rfl, fun rows stats hok => ?_⟩
        · exact ⟨TimingError.invalidParameters, by rw [assemble_rows, hres]⟩
        · simp [assemble_rows, hres] at hok

/-- Claim C5: src approx_times adds each cumulative offset to the naive
civil anchor and only then localizes, so across the Europe/Helsinki
2024-03-31 spring-forward the real elapsed time from the localized anchor
is one hour short of the cumulative offset: anchoring at civil 02:30
(9000000 ms of day) with cumulativeMs [7200000], the produced instant is
3600000 ms after the anchor instant, not 7200000 ms. -/
theorem c5_dst_elapsed_mismatch :
    (approx_times helsinki2024SpringOffset 9000000 [7200000]).getD 0 0 -
        localize helsinki2024SpringOffset 9000000 = 3600000 ∧
    ((3600000 : ℤ) = 7200000 → False) := by
  refine ⟨?_, by decide⟩
  decide

/-- Claim C6: the src assembly of an empty track list returns no rows and
all-zero stats, raising nothing (the embedded assembly core is total). -/
theorem c6_empty_playlist (start_civil_ms : ℤ) :
    load_playlist_rows [] start_civil_ms = ([], PlaylistStats.mk 0 0 0 0) :=
  rfl

/-! Lemmas for the row-level invariants of the src assembly. -/

theorem compute_eq_running : ∀ (ds : List ℤ) (acc : ℤ),
    compute_cumulative_ms_from acc ds = running_sums_from acc ds
  | [], _ => rfl
  | d :: ds, acc => by
    simp only [compute_cumulative_ms_from, running_sums_from, List.cons.injEq, true_and]
    exact compute_eq_running ds (acc + d)

theorem build_rows_map_cumulative : ∀ (i : ℕ) (ts : List TrackRaw) (cs as_ : List ℤ),
    cs.length = ts.length → as_.length = ts.length →
    (build_rows i ts cs as_).map TrackRow.cumulative_ms = cs
  | _, [], [], _, _, _ => by simp [build_rows]
  | _, [], _ :: _, _, hc, _ => by simp at hc
  | _, _ :: _, [], _, hc, _ => by simp at hc
  | _, _ :: _, _ :: _, [], _, ha => by simp at ha
  | i, t :: ts, c :: cs, a :: as_, hc, ha => by
    simp only [build_rows, List.map_cons, List.cons.injEq]
    exact ⟨trivial,
      build_rows_map_cumulative (i + 1) ts cs as_ (by simpa using hc) (by simpa using ha)⟩

theorem build_rows_map_index : ∀ (i : ℕ) (ts : List TrackRaw) (cs as_ : List ℤ),
    cs.length = ts.length → as_.length = ts.length →
    (build_rows i ts cs as_).map TrackRow.index = List.range' (i + 1) ts.length
  | _, [], _, _, _, _ => by simp [build_rows]
  | _, _ :: _, [], _, hc, _ => by simp at hc
  | _, _ :: _, _ :: _, [], _, ha => by simp at ha
  | i, t :: ts, c :: cs, a :: as_, hc, ha => by
    simp only [build_rows, List.map_cons, List.length_cons, List.range']
    exact congrArg (List.cons (i + 1))
      (build_rows_map_index (i + 1) ts cs as_ (by simpa using hc) (by simpa using ha))

theorem build_rows_map_name : ∀ (i : ℕ) (ts : List TrackRaw) (cs as_ : List ℤ),
    cs.length = ts.length → as_.length = ts.length →
    (build_rows i ts cs as_).map TrackRow.name = ts.map TrackRaw.name
  | _, [], _, _, _, _ => by simp [build_rows]
  | _, _ :: _, [], _, hc, _ => by simp at hc
  | _, _ :: _, _ :: _, [], _, ha => by simp at ha
  | i, t :: ts, c :: cs, a :: as_, hc, ha => by
    simp only [build_rows, List.map_cons, List.cons.injEq]
    exact ⟨trivial,
      build_rows_map_name (i + 1) ts cs as_ (by simpa using hc) (by simpa using ha)⟩

theorem build_rows_map_duration : ∀ (i : ℕ) (ts : List TrackRaw) (cs as_ : List ℤ),
    cs.length = ts.length → as_.length = ts.length →
    (build_rows i ts cs as_).map TrackRow.duration_ms = ts.map TrackRaw.duration_ms
  | _, [], _, _, _, _ => by simp [build_rows]
  | _, _ :: _, [], _, hc, _ => by simp at hc
  | _, _ :: _, _ :: _, [], _, ha => by simp at ha
  | i, t :: ts, c :: cs, a :: as_, hc, ha => by
    simp only [build_rows, List.map_cons, List.cons.injEq]
    exact ⟨trivial,
      build_rows_map_duration (i + 1) ts cs as_ (by simpa using hc) (by simpa using ha)⟩

theorem foldl_min_le_init : ∀ (ds : List ℤ) (a : ℤ), ds.foldl min a ≤ a
  | [], _ => le_refl _
  | x :: ds, a => le_trans (foldl_min_le_init ds (min a x)) (min_le_left a x)

theorem init_le_foldl_max : ∀ (ds : List ℤ) (a : ℤ), a ≤ ds.foldl max a
  | [], _ => le_refl _
  | x :: ds, a => le_trans (le_max_left a x) (init_le_foldl_max ds (max a x))

/-- Claim C9: for non-negative durations the src assembly produces rows
whose cumulative offsets are non-decreasing, whose 1-based indices are
contiguous from 1, exactly one row per input track preserving order (same
names and durations in order), and, when at least one track exists, stats
with minDurationMs at most maxDurationMs. -/
theorem c9_row_invariants (tracks : List TrackRaw) (start_civil_ms : ℤ)
    (hd : ∀ t ∈ tracks, 0 ≤ t.duration_ms) :
    List.Chain' (· ≤ ·)
      ((load_playlist_rows tracks start_civil_ms).1.map TrackRow.cumulative_ms) ∧
    (load_playlist_rows tracks start_civil_ms).1.map TrackRow.index =
      List.range' 1 tracks.length ∧
    (load_playlist_rows tracks start_civil_ms).1.map TrackRow.name =
      tracks.map TrackRaw.name ∧
    (load_playlist_rows tracks start_civil_ms).1.map TrackRow.duration_ms =
      tracks.map TrackRaw.duration_ms ∧
    (tracks ≠ [] →
      (load_playlist_rows tracks start_civil_ms).2.min_duration_ms ≤
        (load_playlist_rows tracks start_civil_ms).2.max_duration_ms) := by
  have hrows : (load_playlist_rows tracks start_civil_ms).1 =
      build_rows 0 tracks (compute_cumulative_ms (tracks.map TrackRaw.duration_ms))
        ((compute_cumulative_ms (tracks.map TrackRaw.duration_ms)).map
          (fun c => start_civil_ms + c)) := rfl
  have hstats : (load_playlist_rows tracks start_civil_ms).2 =
      compute_playlist_stats tracks := rfl
  have hcum : (compute_cumulative_ms (tracks.map TrackRaw.duration_ms)).length =
      tracks.length := by
    rw [compute_cumulative_ms, compute_eq_running, running_sums_from_length, List.length_map]
  have happrox : ((compute_cumulative_ms (tracks.map TrackRaw.duration_ms)).map
      (fun c => start_civil_ms + c)).length = tracks.length := by
    rw [List.length_map, hcum]
  refine ⟨?_, ?_, ?_, ?_, ?_⟩
  · rw [hrows, build_rows_map_cumulative 0 tracks _ _ hcum happrox,
      compute_cumulative_ms, compute_eq_running]
    refine running_sums_from_chain' _ 0 ?_
    intro x hx
    obtain ⟨t, ht, rfl⟩ := List.mem_map.mp hx
    exact hd t ht
  · rw [hrows, build_rows_map_index 0 tracks _ _ hcum happrox]
  · rw [hrows, build_rows_map_name 0 tracks _ _ hcum happrox]
  · rw [hrows, build_rows_map_duration 0 tracks _ _ hcum happrox]
  · intro hne
    rw [hstats]
    cases tracks with
    | nil => exact absurd rfl hne
    | cons t ts =>
      show listMinD (TrackRaw.duration_ms t :: ts.map TrackRaw.duration_ms) ≤
        listMaxD (TrackRaw.duration_ms t :: ts.map TrackRaw.duration_ms)
      exact le_trans (foldl_min_le_init _ _) (init_le_foldl_max _ _)

theorem c9_row_invariants_witness :
    (∀ t ∈ [TrackRaw.mk "ida" "Alpha" [Artist.mk "A"] 180000,
        TrackRaw.mk "idb" "Beta" [Artist.mk "B"] 200000], 0 ≤ t.duration_ms) ∧
    (List.Chain' (· ≤ ·)
      ((load_playlist_rows [TrackRaw.mk "ida" "Alpha" [Artist.mk "A"] 180000,
          TrackRaw.mk "idb" "Beta" [Artist.mk "B"] 200000] 73800000).1.map
        TrackRow.cumulative_ms) ∧
    (load_playlist_rows [TrackRaw.mk "ida" "Alpha" [Artist.mk "A"] 180000,
        TrackRaw.mk "idb" "Beta" [Artist.mk "B"] 200000] 73800000).1.map TrackRow.index =
      List.range' 1 ([TrackRaw.mk "ida" "Alpha" [Artist.mk "A"] 180000,
        TrackRaw.mk "idb" "Beta" [Artist.mk "B"] 200000]).length ∧
    (load_playlist_rows [TrackRaw.mk "ida" "Alpha" [Artist.mk "A"] 180000,
        TrackRaw.mk "idb" "Beta" [Artist.mk "B"] 200000] 73800000).1.map TrackRow.name =
      ([TrackRaw.mk "ida" "Alpha" [Artist.mk "A"] 180000,
        TrackRaw.mk "idb" "Beta" [Artist.mk "B"] 200000]).map TrackRaw.name ∧
    (load_playlist_rows [TrackRaw.mk "ida" "Alpha" [Artist.mk "A"] 180000,
        TrackRaw.mk "idb" "Beta" [Artist.mk "B"] 200000] 73800000).1.map
        TrackRow.duration_ms =
      ([TrackRaw.mk "ida" "Alpha" [Artist.mk "A"] 180000,
        TrackRaw.mk "idb" "Beta" [Artist.mk "B"] 200000]).map TrackRaw.duration_ms ∧
    (([TrackRaw.mk "ida" "Alpha" [Artist.mk "A"] 180000,
        TrackRaw.mk "idb" "Beta" [Artist.mk "B"] 200000] ≠ []) →
      (load_playlist_rows [TrackRaw.mk "ida" "Alpha" [Artist.mk "A"] 180000,
          TrackRaw.mk "idb" "Beta" [Artist.mk "B"] 200000] 73800000).2.min_duration_ms ≤
        (load_playlist_rows [TrackRaw.mk "ida" "Alpha" [Artist.mk "A"] 180000,
          TrackRaw.mk "idb" "Beta" [Artist.mk "B"] 200000] 73800000).2.max_duration_ms)) :=
  ⟨by decide,
    c9_row_invariants [TrackRaw.mk "ida" "Alpha" [Artist.mk "A"] 180000,
      TrackRaw.mk "idb" "Beta" [Artist.mk "B"] 200000] 73800000 (by decide)⟩

/-! Formatting and color lemmas. -/

/-- Claim C8: ms_to_mmss renders floor(ms/1000) seconds as minutes and
seconds with seconds mod 60 and minutes unbounded (full integer,
zero-padded to at least two digits), ms_to_hhmmss renders unbounded hours
with minutes and seconds mod 60, and the spec's examples hold, including
an overflow past 99 minutes. -/
theorem c8_duration_formatting :
    (∀ ms : ℤ, ms_to_mmss ms = fmt02d (ms / 60000) ++ ":" ++ fmt02d (ms / 1000 % 60) ∧
      ms_to_hhmmss ms = fmt02d (ms / 3600000) ++ "h " ++ fmt02d (ms / 60000 % 60) ++ "m " ++
        fmt02d (ms / 1000 % 60) ++ "s") ∧
    ms_to_mmss 213000 = "03:33" ∧
    ms_to_hhmmss 3661000 = "01h 01m 01s" ∧
    ms_to_hhmmss 7200000 = "02h 00m 00s" ∧
    ms_to_mmss 6000000 = "100:00" := by
  refine ⟨fun ms => ⟨?_, ?_⟩, by decide, by decide, by decide, by decide⟩
  · show fmt02d (ms / 1000 / 60) ++ ":" ++ fmt02d (ms / 1000 % 60) = _
    rw [show ms / 1000 / 60 = ms / 60000 from by omega]
  · show fmt02d (ms / 1000 / 3600) ++ "h " ++ fmt02d (ms / 1000 % 3600 / 60) ++ "m " ++
      fmt02d (ms / 1000 % 60) ++ "s" = _
    rw [show ms / 1000 / 3600 = ms / 3600000 from by omega,
      show ms / 1000 % 3600 / 60 = ms / 60000 % 60 from by omega]

theorem duration_color_eq_spec (ms mn mx : ℤ) :
    duration_color ms mn mx = durationColorSpec ms mn mx := by
  unfold duration_color durationColorSpec
  by_cases h : mx = mn
  · rw [if_pos h, if_pos h.symm]
  · have hne : mn ≠ mx := fun hh => h hh.symm
    have hq : (mn : ℚ) ≠ (mx : ℚ) := by exact_mod_cast hne
    rw [if_neg h, if_neg hne]
    by_cases hle : (ms : ℚ) ≤ ((mn : ℚ) + (mx : ℚ)) / 2
    · have hmid : ¬ (((mn : ℚ) + (mx : ℚ)) / 2 = (mn : ℚ)) := by
        intro hc
        apply hq
        linarith
      rw [if_pos hle, if_pos hle]
      unfold linear_interpolate
      rw [if_neg hmid]
      rfl
    · have hmid : ¬ ((mx : ℚ) = ((mn : ℚ) + (mx : ℚ)) / 2) := by
        intro hc
        apply hq
        linarith
      rw [if_neg hle, if_neg hle]
      unfold linear_interpolate
      rw [if_neg hmid]
      rfl

theorem pyTrunc_intCast (z : ℤ) : pyTrunc (z : ℚ) = z := by
  rw [pyTrunc]
  split_ifs <;> simp

theorem blendChannel_zero (s e : ℤ) : blendChannel s e 0 = s := by
  have h : (s : ℚ) + ((e : ℚ) - (s : ℚ)) * 0 = (s : ℚ) := by ring
  rw [blendChannel, h, pyTrunc_intCast]

theorem blendChannel_one (s e : ℤ) : blendChannel s e 1 = e := by
  have h : (s : ℚ) + ((e : ℚ) - (s : ℚ)) * 1 = (e : ℚ) := by ring
  rw [blendChannel, h, pyTrunc_intCast]

/-- Claim C7: duration_color is gray exactly as the spec says when
min = max, otherwise it agrees pointwise with the spec's two-segment
clamped, truncated green-white-red gradient; with min 0 and max 100,
value 0 gives pure green, 50 pure white and 100 pure red. -/
theorem c7_color_scale :
    (∀ ms mn mx : ℤ, duration_color ms mn mx = durationColorSpec ms mn mx) ∧
    duration_color 100 100 100 = "#808080" ∧
    duration_color 0 0 100 = "#2ecc71" ∧
    duration_color 50 0 100 = "#ffffff" ∧
    duration_color 100 0 100 = "#e74c3c" := by
  refine ⟨duration_color_eq_spec, by decide, ?_, ?_, ?_⟩
  · rw [duration_color_eq_spec]
    unfold durationColorSpec
    rw [if_neg (by norm_num), if_pos (by norm_num)]
    norm_num [clamp01]
    rw [blendChannel_zero, blendChannel_zero, blendChannel_zero]
    decide
  · rw [duration_color_eq_spec]
    unfold durationColorSpec
    rw [if_neg (by norm_num), if_pos (by norm_num)]
    norm_num [clamp01]
    rw [blendChannel_one, blendChannel_one, blendChannel_one]
    decide
  · rw [duration_color_eq_spec]
    unfold durationColorSpec
    rw [if_neg (by norm_num), if_neg (by norm_num)]
    norm_num [clamp01]
    rw [blendChannel_one, blendChannel_one, blendChannel_one]
    decide

theorem clamp01_mem (q : ℚ) : 0 ≤ clamp01 q ∧ clamp01 q ≤ 1 :=
  ⟨le_max_left 0 _, max_le (by norm_num) (min_le_left 1 q)⟩

theorem pyTrunc_mem (q : ℚ) (h0 : 0 ≤ q) (h255 : q ≤ 255) :
    0 ≤ pyTrunc q ∧ pyTrunc q ≤ 255 := by
  rw [pyTrunc, if_pos h0]
  constructor
  · exact Int.le_floor.mpr (by exact_mod_cast h0)
  · have hle : (⌊q⌋ : ℚ) ≤ 255 := le_trans (Int.floor_le q) h255
    exact_mod_cast hle

theorem blendChannel_mem (s e : ℤ) (pos : ℚ) (hs0 : 0 ≤ s) (hs : s ≤ 255)
    (he0 : 0 ≤ e) (he : e ≤ 255) (hp0 : 0 ≤ pos) (hp1 : pos ≤ 1) :
    0 ≤ blendChannel s e pos ∧ blendChannel s e pos ≤ 255 := by
  have hsq : (0 : ℚ) ≤ (s : ℚ) := by exact_mod_cast hs0
  have hsq2 : (s : ℚ) ≤ 255 := by exact_mod_cast hs
  have heq : (0 : ℚ) ≤ (e : ℚ) := by exact_mod_cast he0
  have heq2 : (e : ℚ) ≤ 255 := by exact_mod_cast he
  apply pyTrunc_mem
  · nlinarith [mul_nonneg hsq (by linarith : (0 : ℚ) ≤ 1 - pos), mul_nonneg heq hp0]
  · nlinarith [mul_nonneg (by linarith : (0 : ℚ) ≤ 255 - (s : ℚ))
      (by linarith : (0 : ℚ) ≤ 1 - pos),
      mul_nonneg (by linarith : (0 : ℚ) ≤ 255 - (e : ℚ)) hp0]

set_option maxRecDepth 8000 in
theorem pad2x_byte : ∀ n < 256, (pad2x n).length = 2 ∧ (pad2x n).all isHexDigitLower = true := by
  decide

theorem fmt02x_byte (z : ℤ) (h0 : 0 ≤ z) (h255 : z ≤ 255) :
    (fmt02x z).length = 2 ∧ (fmt02x z).all isHexDigitLower = true := by
  rw [fmt02x, if_neg (by omega)]
  exact pad2x_byte z.toNat (by omega)

theorem hexColor_wellformed (r g b : ℤ)
    (hr : 0 ≤ r ∧ r ≤ 255) (hg : 0 ≤ g ∧ g ≤ 255) (hb : 0 ≤ b ∧ b ≤ 255) :
    (hexColor r g b).length = 7 ∧
    ∃ ds, (hexColor r g b).data = '#' :: ds ∧ ds.length = 6 ∧
      ds.all isHexDigitLower = true := by
  obtain ⟨hrl, hra⟩ := fmt02x_byte r hr.1 hr.2
  obtain ⟨hgl, hga⟩ := fmt02x_byte g hg.1 hg.2
  obtain ⟨hbl, hba⟩ := fmt02x_byte b hb.1 hb.2
  refine ⟨?_, fmt02x r ++ fmt02x g ++ fmt02x b, rfl, ?_, ?_⟩
  · show ('#' :: (fmt02x r ++ fmt02x g ++ fmt02x b)).length = 7
    simp [hrl, hgl, hbl]
  · simp [hrl, hgl, hbl]
  · simp [List.all_append, hra, hga, hba]

set_option maxRecDepth 4000 in
/-- Claim C10: duration_color is total over all integer inputs, also for
values outside the range and for min greater than max, and always
returns a hash sign followed by six lowercase hexadecimal digits, each
channel staying in [0, 255] because the position is clamped. -/
theorem c10_color_totality (ms mn mx : ℤ) :
    (duration_color ms mn mx).length = 7 ∧
    ∃ ds, (duration_color ms mn mx).data = '#' :: ds ∧ ds.length = 6 ∧
      ds.all isHexDigitLower = true := by
  rw [duration_color_eq_spec ms mn mx]
  unfold durationColorSpec
  by_cases h : mn = mx
  · rw [if_pos h]
    exact ⟨by decide, ['8', '0', '8', '0', '8', '0'], by decide, by decide, by decide⟩
  · rw [if_neg h]
    by_cases hle : (ms : ℚ) ≤ ((mn : ℚ) + (mx : ℚ)) / 2
    · rw [if_pos hle]
      have hc := clamp01_mem (((ms : ℚ) - (mn : ℚ)) /
        (((mn : ℚ) + (mx : ℚ)) / 2 - (mn : ℚ)))
      exact hexColor_wellformed _ _ _
        (blendChannel_mem 46 255 _ (by norm_num) (by norm_num) (by norm_num) (by norm_num)
          hc.1 hc.2)
        (blendChannel_mem 204 255 _ (by norm_num) (by norm_num) (by norm_num) (by norm_num)
          hc.1 hc.2)
        (blendChannel_mem 113 255 _ (by norm_num) (by norm_num) (by norm_num) (by norm_num)
          hc.1 hc.2)
    · rw [if_neg hle]
      have hc := clamp01_mem (((ms : ℚ) - ((mn : ℚ) + (mx : ℚ)) / 2) /
        ((mx : ℚ) - ((mn : ℚ) + (mx : ℚ)) / 2))
      exact hexColor_wellformed _ _ _
        (blendChannel_mem 255 231 _ (by norm_num) (by norm_num) (by norm_num) (by norm_num)
          hc.1 hc.2)
        (blendChannel_mem 255 76 _ (by norm_num) (by norm_num) (by norm_num) (by norm_num)
          hc.1 hc.2)
        (blendChannel_mem 255 60 _ (by norm_num) (by norm_num) (by norm_num) (by norm_num)
          hc.1 hc.2)
